import Mathlib

/-!
Shallow embedding of the `reminder` terminal application
(`src/db.rs`, `src/ui.rs`, `src/main.rs`).

The embedding models:
* the `Reminder` record and the SQLite-backed `Database` as a pure store
  (a list of rows plus the next AUTOINCREMENT id); the wall clock is passed
  in explicitly as the `now` argument where the Rust code reads `Local::now()`;
* the pure validator `validate_time_format`, including the exact behaviour of
  Rust's `str::parse::<u32>` (optional leading `+`, decimal digits, bound 2^32);
* the UI state machine `AppState` with its key handlers
  `handle_form_input` and `handle_delete_input`;
* the background `notification_worker` loop as an explicit step function over
  the deduplication set, with the per-attempt delivery outcome injected as an
  oracle.
-/

/-- `db.rs` lines 5-12: the persistent reminder record. -/
structure Reminder where
  id : Int
  title : String
  description : String
  time : String
  created_at : String
deriving DecidableEq, Repr

/-- `db.rs` lines 14-16: the store.  The SQLite connection is modelled as the
list of rows in insertion order together with the next AUTOINCREMENT rowid. -/
structure Database where
  rows : List Reminder
  next_id : Int
deriving DecidableEq, Repr

/-- The AUTOINCREMENT invariant: every stored id is below the next fresh id. -/
def Database.wf (db : Database) : Prop :=
  ∀ r ∈ db.rows, r.id < db.next_id

instance (db : Database) : Decidable db.wf :=
  inferInstanceAs (Decidable (∀ r ∈ db.rows, r.id < db.next_id))

/-- `db.rs` lines 40-55, `add_reminder`: INSERT a fresh row and return it.
`now` stands for `Local::now().to_rfc3339()`. -/
def Database.add_reminder (db : Database) (title description time now : String) :
    Database × Reminder :=
  let r : Reminder :=
    { id := db.next_id, title := title, description := description,
      time := time, created_at := now }
  ({ rows := db.rows ++ [r], next_id := db.next_id + 1 }, r)

/-- The comparison used by `ORDER BY time ASC`. -/
def timeLe (a b : Reminder) : Prop := a.time ≤ b.time

instance : DecidableRel timeLe :=
  fun a b =>
    decidable_of_iff (a.time.toList ≤ b.time.toList)
      (by rw [timeLe, String.le_iff_toList_le])

instance : IsTotal Reminder timeLe := ⟨fun a b => le_total a.time b.time⟩

instance : IsTrans Reminder timeLe := ⟨fun _ _ _ h h' => le_trans h h'⟩

/-- `db.rs` lines 57-77, `get_all_reminders`: SELECT all rows
`ORDER BY time ASC`. -/
def Database.get_all_reminders (db : Database) : List Reminder :=
  List.insertionSort timeLe db.rows

/-- `db.rs` lines 79-85, `update_reminder`: UPDATE title, description and time
WHERE id matches; rows with any other id are untouched. -/
def Database.update_reminder (db : Database) (id : Int)
    (title description time : String) : Database :=
  { db with
    rows := db.rows.map fun r =>
      if r.id = id then
        { r with title := title, description := description, time := time }
      else r }

/-- `db.rs` lines 87-93, `delete_reminder`: DELETE WHERE id matches. -/
def Database.delete_reminder (db : Database) (id : Int) : Database :=
  { db with rows := db.rows.filter fun r => r.id ≠ id }

/-- `ui.rs` lines 6-12: the UI mode. -/
inductive Mode where
  | List
  | Add
  | Edit
  | Delete
deriving DecidableEq, Repr

/-- The `[String; 3]` draft array of `ui.rs` line 20, slots 0/1/2 being
title, description, time. -/
structure FormFields where
  title : String
  description : String
  time : String
deriving DecidableEq, Repr

/-- Reading `form_fields[i]`. -/
def FormFields.get (f : FormFields) (i : Fin 3) : String :=
  if i.val = 0 then f.title else if i.val = 1 then f.description else f.time

/-- Writing `form_fields[i] = s`. -/
def FormFields.set (f : FormFields) (i : Fin 3) (s : String) : FormFields :=
  if i.val = 0 then { f with title := s }
  else if i.val = 1 then { f with description := s }
  else { f with time := s }

/-- `ui.rs` lines 14-22: the UI state.  `input_field` is always kept in
`{0,1,2}` by the code (`% 3` and the if-chain), so it is a `Fin 3` here. -/
structure AppState where
  mode : Mode
  reminders : List Reminder
  selected_idx : Nat
  input : String
  input_field : Fin 3
  form_fields : FormFields
  error_msg : Option String
deriving DecidableEq, Repr

/-- `ui.rs` lines 25-35, `AppState::new`. -/
def AppState.new (reminders : List Reminder) : AppState :=
  { mode := Mode.List, reminders := reminders, selected_idx := 0,
    input := "", input_field := 0,
    form_fields := { title := "", description := "", time := "" },
    error_msg := none }

/-- `ui.rs` lines 53-59, `AppState::next_field`. -/
def AppState.next_field (app : AppState) : AppState :=
  if app.mode = Mode.Add ∨ app.mode = Mode.Edit then
    let fields := app.form_fields.set app.input_field app.input
    let i : Fin 3 := app.input_field + 1
    { app with form_fields := fields, input_field := i, input := fields.get i }
  else app

/-- `ui.rs` lines 61-67, `AppState::prev_field`. -/
def AppState.prev_field (app : AppState) : AppState :=
  if app.mode = Mode.Add ∨ app.mode = Mode.Edit then
    let fields := app.form_fields.set app.input_field app.input
    let i : Fin 3 := if app.input_field = 0 then 2 else app.input_field - 1
    { app with form_fields := fields, input_field := i, input := fields.get i }
  else app

/-- The key codes the handlers in `main.rs` distinguish. -/
inductive KeyCode where
  | char : Char → KeyCode
  | backspace
  | tab
  | backTab
  | esc
  | enter
  | up
  | down
  | other
deriving DecidableEq, Repr

/-- Rust `str::parse::<u32>` on a character list: an optional leading `+`,
then one or more decimal digits, value below `2^32`. -/
def parse_u32 (s : List Char) : Option Nat :=
  let digits : List Char :=
    match s with
    | '+' :: rest => rest
    | _ => s
  if digits ≠ [] ∧ digits.all (fun c => c.isDigit) then
    let v := digits.foldl (fun acc c => acc * 10 + (c.toNat - 48)) 0
    if v < 4294967296 then some v else none
  else none

/-- Rust `str::split(':')` on a character list: the colon-separated chunks
(one more chunk than there are colons). -/
def splitColon : List Char → List (List Char)
  | [] => [[]]
  | c :: rest =>
    if c = ':' then [] :: splitColon rest
    else
      match splitColon rest with
      | [] => [[c]]
      | h :: t => (c :: h) :: t

/-- `main.rs` lines 104-119, `validate_time_format`. -/
def validate_time_format (time : String) : Bool :=
  if time.toList.length ≠ 5 ∨ ¬ time.toList.contains ':' then false
  else
    match splitColon time.toList with
    | [p0, p1] =>
      match parse_u32 p0, parse_u32 p1 with
      | some hour, some minute => decide (hour < 24 ∧ minute < 60)
      | _, _ => false
    | _ => false

/-- The regime claimed in the specification for `validate_time`: exactly the
strings `"HhMm"` of length 5 made of a two-digit zero-padded hour, one colon
and a two-digit zero-padded minute with hour below 24 and minute below 60. -/
def claimed_valid (s : String) : Bool :=
  match s.toList with
  | [h1, h2, c, m1, m2] =>
    decide (c = ':') && h1.isDigit && h2.isDigit && m1.isDigit && m2.isDigit &&
      decide ((h1.toNat - 48) * 10 + (h2.toNat - 48) < 24) &&
      decide ((m1.toNat - 48) * 10 + (m2.toNat - 48) < 60)
  | _ => false

/-- The amended regime: length exactly 5, exactly one colon, and the two
colon-separated parts each parse as a Rust `u32` (decimal digits, optionally
preceded by `+`), with hour below 24 and minute below 60. -/
def amended_valid (s : String) : Bool :=
  let l := s.toList
  decide (l.length = 5) && decide (l.count ':' = 1) &&
    match parse_u32 (l.takeWhile (fun c => c ≠ ':')),
        parse_u32 ((l.dropWhile (fun c => c ≠ ':')).tail) with
    | some hour, some minute => decide (hour < 24 ∧ minute < 60)
    | _, _ => false

/-- `main.rs` lines 121-174, `handle_form_input`: one key event in `Add` or
`Edit` mode.  `is_add` distinguishes the two call sites in `run_app`; `now`
stands for the wall clock read inside `Database.add_reminder`.  Store calls
always succeed in the pure model, so the `if let Ok` / `is_ok` failure
branches (which leave the state unchanged) do not appear. -/
def handle_form_input (key : KeyCode) (app : AppState) (db : Database)
    (is_add : Bool) (now : String) : AppState × Database :=
  match key with
  | KeyCode.char c => ({ app with input := app.input.push c }, db)
  | KeyCode.backspace => ({ app with input := String.mk app.input.toList.dropLast }, db)
  | KeyCode.tab => (app.next_field, db)
  | KeyCode.backTab => (app.prev_field, db)
  | KeyCode.esc => ({ app with mode := Mode.List }, db)
  | KeyCode.enter =>
    let fields := app.form_fields.set app.input_field app.input
    if fields.title = "" ∨ fields.description = "" ∨ fields.time = "" then
      ({ app with form_fields := fields,
                  error_msg := some "All fields must be filled" }, db)
    else if ¬ validate_time_format fields.time then
      ({ app with form_fields := fields,
                  error_msg := some "Invalid time format. Use HH:MM (e.g., 06:59)" }, db)
    else
      let title := fields.title
      let description := fields.description
      let time := fields.time
      if is_add then
        let res := db.add_reminder title description time now
        ({ app with form_fields := fields,
                    reminders := app.reminders ++ [res.2],
                    mode := Mode.List, error_msg := none }, res.1)
      else
        match app.reminders.get? app.selected_idx with
        | some selected =>
          let db' := db.update_reminder selected.id title description time
          ({ app with form_fields := fields,
                      reminders := app.reminders.set app.selected_idx
                        { selected with title := title,
                                        description := description, time := time },
                      mode := Mode.List, error_msg := none }, db')
        | none => ({ app with form_fields := fields }, db)
  | _ => (app, db)

/-- `main.rs` lines 176-193, `handle_delete_input`: one key event in `Delete`
mode.  The store delete always succeeds in the pure model, so the `is_ok`
failure branch (which leaves the state unchanged) does not appear. -/
def handle_delete_input (key : KeyCode) (app : AppState) (db : Database) :
    AppState × Database :=
  match key with
  | KeyCode.char c =>
    if c = 'y' then
      match app.reminders.get? app.selected_idx with
      | some reminder =>
        let db' := db.delete_reminder reminder.id
        let rs := app.reminders.eraseIdx app.selected_idx
        let idx :=
          if app.selected_idx > 0 ∧ app.selected_idx ≥ rs.length then
            app.selected_idx - 1
          else app.selected_idx
        ({ app with reminders := rs, selected_idx := idx, mode := Mode.List }, db')
      | none => (app, db)
    else if c = 'n' then ({ app with mode := Mode.List }, db)
    else (app, db)
  | KeyCode.esc => ({ app with mode := Mode.List }, db)
  | _ => (app, db)

/-- One iteration of the inner `for reminder in reminders` loop of
`notification_worker` (`main.rs` lines 204-220), processed left to right.
`t` is the current `HH:MM` string, `deliver id` tells whether the OS-level
notification delivery succeeds for that attempt, `notified` is the content of
the mutex-guarded dedup set.  Returns the new dedup set and the ids whose
notifications were successfully emitted, in order. -/
def notification_cycle (t : String) (deliver : Int → Bool) :
    List Reminder → List Int → List Int × List Int
  | [], notified => (notified, [])
  | r :: rs, notified =>
    if r.time = t ∧ r.id ∉ notified then
      if deliver r.id then
        let res := notification_cycle t deliver rs (r.id :: notified)
        (res.1, r.id :: res.2)
      else notification_cycle t deliver rs notified
    else notification_cycle t deliver rs notified

/-- One poll cycle of `notification_worker` (`main.rs` lines 195-224): the
freshly fetched reminder list, the current wall-clock `HH:MM`, and the
delivery outcome oracle for this cycle. -/
structure WatcherCycle where
  reminders : List Reminder
  current_time : String
  deliver : Int → Bool

/-- The whole watcher loop over a finite prefix of its cycles, threading the
dedup set through; returns the final dedup set and every successfully emitted
id, in order. -/
def notification_run : List WatcherCycle → List Int → List Int × List Int
  | [], notified => (notified, [])
  | c :: cs, notified =>
    let step := notification_cycle c.current_time c.deliver c.reminders notified
    let rest := notification_run cs step.1
    (rest.1, step.2 ++ rest.2)

/-- Sortedness of a cached reminder list by the `time` field, ascending. -/
def sortedByTime (l : List Reminder) : Prop :=
  List.Sorted timeLe l

instance (l : List Reminder) : Decidable (sortedByTime l) :=
  inferInstanceAs (Decidable (List.Pairwise timeLe l))

/-- Example row used by concrete instantiations below. -/
def exampleReminder : Reminder :=
  { id := 1, title := "a", description := "b", time := "10:00", created_at := "T" }

/-- Example row with an earlier time than `exampleReminder`. -/
def exampleReminder2 : Reminder :=
  { id := 2, title := "t", description := "d", time := "09:00", created_at := "T2" }

/-- Example store holding the two example rows. -/
def exampleDb : Database :=
  { rows := [exampleReminder, exampleReminder2], next_id := 3 }

/-- Example UI state in `Delete` mode, second entry selected. -/
def exampleDeleteApp : AppState :=
  { mode := Mode.Delete, reminders := [exampleReminder, exampleReminder2],
    selected_idx := 1, input := "", input_field := 0,
    form_fields := { title := "", description := "", time := "" },
    error_msg := none }

/-- Example UI state in `Add` mode about to submit the time draft `"09:00"`
over a one-element sorted cache. -/
def exampleAddApp : AppState :=
  { mode := Mode.Add, reminders := [exampleReminder], selected_idx := 0,
    input := "09:00", input_field := 2,
    form_fields := { title := "t", description := "d", time := "" },
    error_msg := none }

/-- Example UI state in `Add` mode about to submit with an empty description. -/
def exampleEmptyDescApp : AppState :=
  { mode := Mode.Add, reminders := [], selected_idx := 0,
    input := "x", input_field := 0,
    form_fields := { title := "", description := "", time := "06:59" },
    error_msg := none }

theorem splitColon_ne_nil : ∀ l : List Char, splitColon l ≠ []
  | [] => by simp [splitColon]
  | c :: rest => by
    by_cases h : c = ':'
    · simp [splitColon, h]
    · simp only [splitColon, h, if_false]
      cases splitColon rest <;> simp

theorem splitColon_length (l : List Char) :
    (splitColon l).length = l.count ':' + 1 := by
  induction l with
  | nil => simp [splitColon]
  | cons c rest ih =>
    by_cases h : c = ':'
    · subst h
      simp [splitColon, List.count_cons, ih]
    · simp only [splitColon, h, if_false, List.count_cons]
      rcases hs : splitColon rest with _ | ⟨hd, tl⟩
      · exact absurd hs (splitColon_ne_nil rest)
      · rw [hs] at ih
        simp only [List.length_cons] at ih ⊢
        simp [h, ih]

theorem splitColon_count_zero (l : List Char) (h : l.count ':' = 0) :
    splitColon l = [l] := by
  induction l with
  | nil => simp [splitColon]
  | cons c rest ih =>
    simp only [List.count_cons] at h
    by_cases hc : c = ':'
    · simp [hc] at h
    · simp only [hc, beq_iff_eq, if_false] at h
      have h0 : rest.count ':' = 0 := by omega
      simp [splitColon, hc, ih h0]

theorem splitColon_count_one (l : List Char) (h : l.count ':' = 1) :
    splitColon l =
      [l.takeWhile (fun c => c ≠ ':'), (l.dropWhile (fun c => c ≠ ':')).tail] := by
  induction l with
  | nil => simp at h
  | cons c rest ih =>
    simp only [List.count_cons] at h
    by_cases hc : c = ':'
    · subst hc
      simp only [beq_self_eq_true, if_true] at h
      have h0 : rest.count ':' = 0 := by omega
      simp [splitColon, splitColon_count_zero rest h0, List.takeWhile_cons,
        List.dropWhile_cons]
    · simp only [hc, beq_iff_eq, if_false] at h
      rw [splitColon]
      simp only [hc, if_false]
      rw [ih h]
      simp [List.takeWhile_cons, List.dropWhile_cons, hc]

theorem validate_eq_amended (s : String) :
    validate_time_format s = amended_valid s := by
  rw [validate_time_format, amended_valid]
  generalize s.toList = l
  by_cases hlen : l.length = 5
  · by_cases hcount : l.count ':' = 1
    · have hmem : ':' ∈ l := by
        rw [← List.count_pos_iff]
        omega
      rw [splitColon_count_one _ hcount]
      simp [hlen, hcount, hmem]
    · by_cases hmem : ':' ∈ l
      · have hpos : 0 < l.count ':' := List.count_pos_iff.mpr hmem
        have hsplit := splitColon_length l
        rcases hs : splitColon l with _ | ⟨a, _ | ⟨b, _ | ⟨c, t⟩⟩⟩
        · exact absurd hs (splitColon_ne_nil l)
        · rw [hs] at hsplit
          simp at hsplit
          omega
        · rw [hs] at hsplit
          simp at hsplit
          omega
        · simp [hlen, hmem, hcount]
      · have h0 : l.count ':' = 0 := List.count_eq_zero.mpr hmem
        simp [hlen, hmem, h0]
  · simp [hlen]

/-- C1 (counterexample): the claim says `validate_time_format` returns `false`
for every 5-character string whose hour or minute part is not exactly two
digits, but on `"1:023"` (one-digit hour, three-digit minute) the code returns
`true`, while the claimed regime rejects it. -/
theorem validate_time_claimed_counterexample :
    validate_time_format "1:023" = true ∧ claimed_valid "1:023" = false := by
  constructor <;> rfl

/-- C1 (amended): `validate_time_format` accepts exactly the 5-character
strings with exactly one colon whose two colon-separated parts both parse as
Rust `u32` values (decimal digits, optionally preceded by `+`, so extra
leading zeros and a leading `+` are allowed), with hour below 24 and minute
below 60; in particular `"23:59"` and `"06:59"` are accepted while `"6:59"`,
`"24:00"`, `"06:5"` and `"ab:cd"` are rejected. -/
theorem validate_time_amended_spec :
    (∀ s, validate_time_format s = amended_valid s) ∧
    validate_time_format "23:59" = true ∧ validate_time_format "06:59" = true ∧
    validate_time_format "6:59" = false ∧ validate_time_format "24:00" = false ∧
    validate_time_format "06:5" = false ∧ validate_time_format "ab:cd" = false :=
  ⟨validate_eq_amended, rfl, rfl, rfl, rfl, rfl, rfl⟩

/-- C6: `get_all_reminders` returns all stored rows sorted ascending by their
`time` field, and on an empty store it returns the empty sequence rather than
an error. -/
theorem get_all_reminders_spec (db : Database) :
    sortedByTime db.get_all_reminders ∧
    db.get_all_reminders.Perm db.rows ∧
    (db.rows = [] → db.get_all_reminders = []) :=
  ⟨List.sorted_insertionSort timeLe db.rows,
   List.perm_insertionSort timeLe db.rows,
   fun h => by rw [Database.get_all_reminders, h]; rfl⟩

/-- C6 (witness): the sorted-and-complete listing property evaluated on the
concrete example store, and the empty store yields the empty list. -/
theorem get_all_reminders_spec_witness :
    sortedByTime (Database.get_all_reminders { rows := [], next_id := 1 }) ∧
    Database.get_all_reminders { rows := [], next_id := 1 } = [] ∧
    (Database.get_all_reminders exampleDb).Perm exampleDb.rows :=
  ⟨(get_all_reminders_spec { rows := [], next_id := 1 }).1,
   (get_all_reminders_spec { rows := [], next_id := 1 }).2.2 rfl,
   (get_all_reminders_spec exampleDb).2.1⟩

theorem map_id_of_mem_fix {α : Type} (f : α → α) :
    ∀ l : List α, (∀ a ∈ l, f a = a) → l.map f = l
  | [], _ => rfl
  | a :: l, h => by
    rw [List.map_cons, h a (by simp),
      map_id_of_mem_fix f l (fun b hb => h b (by simp [hb]))]

/-- C8: for an id not present in the store, `update_reminder` and
`delete_reminder` both succeed as silent no-ops, leaving the store's contents
unchanged. -/
theorem absent_id_noop_spec (db : Database) (i : Int) (t d tm : String)
    (h : ∀ r ∈ db.rows, r.id ≠ i) :
    db.update_reminder i t d tm = db ∧ db.delete_reminder i = db := by
  obtain ⟨rows, next⟩ := db
  simp only [Database.update_reminder, Database.delete_reminder]
  constructor
  · have hm : rows.map (fun r => if r.id = i then
        { r with title := t, description := d, time := tm } else r) = rows :=
      map_id_of_mem_fix _ rows (fun r hr => if_neg (h r hr))
    rw [hm]
  · have hf : rows.filter (fun r => r.id ≠ i) = rows := by
      rw [List.filter_eq_self]
      intro r hr
      simp [h r hr]
    rw [hf]

/-- C8 (witness): updating and deleting the absent id 7 on the concrete
example store leaves it unchanged. -/
theorem absent_id_noop_spec_witness :
    exampleDb.update_reminder 7 "x" "y" "11:11" = exampleDb ∧
    exampleDb.delete_reminder 7 = exampleDb :=
  absent_id_noop_spec exampleDb 7 "x" "y" "11:11" (by decide)

/-- C5: on a well-formed store, adding a reminder with non-empty title and
description and a validated time returns a record carrying exactly those field
values (and the injected clock value as `created_at`), with an id strictly
greater than every stored id; the subsequent listing contains that record, any
listed record carrying that id is exactly that record, and the store stays
well-formed. -/
theorem add_reminder_spec (db : Database) (title description time now : String)
    (hw : db.wf) (ht : title ≠ "") (hd : description ≠ "")
    (hv : validate_time_format time = true) :
    (db.add_reminder title description time now).2.title = title ∧
    (db.add_reminder title description time now).2.description = description ∧
    (db.add_reminder title description time now).2.time = time ∧
    (db.add_reminder title description time now).2.created_at = now ∧
    (∀ r ∈ db.rows, r.id < (db.add_reminder title description time now).2.id) ∧
    (db.add_reminder title description time now).2 ∈
      (db.add_reminder title description time now).1.get_all_reminders ∧
    (∀ r ∈ (db.add_reminder title description time now).1.get_all_reminders,
      r.id = (db.add_reminder title description time now).2.id →
        r = (db.add_reminder title description time now).2) ∧
    (db.add_reminder title description time now).1.wf := by
  refine ⟨rfl, rfl, rfl, rfl, fun r hr => hw r hr, ?_, ?_, ?_⟩
  · rw [Database.add_reminder]
    simp [Database.get_all_reminders]
  · intro r hr hid
    rw [Database.add_reminder] at hr hid ⊢
    simp only [Database.get_all_reminders, List.mem_insertionSort,
      List.mem_append, List.mem_singleton] at hr
    rcases hr with hr | hr
    · exact absurd hid (by simpa using (hw r hr).ne)
    · exact hr
  · intro r hr
    rw [Database.add_reminder] at hr
    simp only [List.mem_append, List.mem_singleton] at hr
    show r.id < db.next_id + 1
    rcases hr with hr | hr
    · have := hw r hr
      omega
    · rw [hr]
      show db.next_id < db.next_id + 1
      omega

/-- C5 (witness): adding `("t", "d", "06:59")` to the concrete example store
returns a record with those fields and a fresh id, listed afterwards. -/
theorem add_reminder_spec_witness :
    exampleDb.wf ∧ ("t" : String) ≠ "" ∧ ("d" : String) ≠ "" ∧
    validate_time_format "06:59" = true ∧
    (exampleDb.add_reminder "t" "d" "06:59" "N").2 ∈
      (exampleDb.add_reminder "t" "d" "06:59" "N").1.get_all_reminders :=
  ⟨by decide, by decide, by decide, by decide,
   (add_reminder_spec exampleDb "t" "d" "06:59" "N" (by decide) (by decide)
      (by decide) (by decide)).2.2.2.2.2.1⟩

/-- C7: on a store with distinct ids containing a row `r0` with id `i`, after
`update_reminder i t d tm` the listing contains the record with id `i`
carrying exactly the new title, description and time with id and `created_at`
unchanged, any listed record with id `i` is exactly that record, and the
records with other ids pass through completely unchanged in both directions. -/
theorem update_reminder_frame_spec (db : Database) (i : Int) (t d tm : String)
    (r0 : Reminder) (hnd : (db.rows.map Reminder.id).Nodup)
    (h0 : r0 ∈ db.rows) (hid : r0.id = i) :
    { r0 with title := t, description := d, time := tm } ∈
      (db.update_reminder i t d tm).get_all_reminders ∧
    (∀ r ∈ db.rows, r.id ≠ i →
      r ∈ (db.update_reminder i t d tm).get_all_reminders) ∧
    (∀ r' ∈ (db.update_reminder i t d tm).get_all_reminders,
      r'.id ≠ i → r' ∈ db.rows) ∧
    (∀ r' ∈ (db.update_reminder i t d tm).get_all_reminders,
      r'.id = i → r' = { r0 with title := t, description := d, time := tm }) := by
  have hmem : ∀ x, x ∈ (db.update_reminder i t d tm).get_all_reminders ↔
      x ∈ db.rows.map (fun r => if r.id = i then
        { r with title := t, description := d, time := tm } else r) := by
    intro x
    rw [Database.get_all_reminders, List.mem_insertionSort, Database.update_reminder]
  refine ⟨?_, ?_, ?_, ?_⟩
  · rw [hmem]
    refine List.mem_map.mpr ⟨r0, h0, ?_⟩
    rw [if_pos hid]
  · intro r hr hne
    rw [hmem]
    refine List.mem_map.mpr ⟨r, hr, ?_⟩
    rw [if_neg hne]
  · intro r' hr' hne
    rw [hmem] at hr'
    obtain ⟨r, hr, hf⟩ := List.mem_map.mp hr'
    by_cases hc : r.id = i
    · rw [if_pos hc] at hf
      exact absurd (by rw [← hf]; exact hc) hne
    · rw [if_neg hc] at hf
      rw [← hf]
      exact hr
  · intro r' hr' heq
    rw [hmem] at hr'
    obtain ⟨r, hr, hf⟩ := List.mem_map.mp hr'
    by_cases hc : r.id = i
    · have : r = r0 := List.inj_on_of_nodup_map hnd hr h0 (by rw [hc, hid])
      rw [← hf, if_pos hc, this]
    · rw [if_neg hc] at hf
      rw [← hf] at heq
      exact absurd heq hc

/-- C7 (witness): updating id 2 in the concrete example store shows the new
field values for id 2 and leaves the row with id 1 listed unchanged. -/
theorem update_reminder_frame_spec_witness :
    { exampleReminder2 with title := "nt", description := "nd", time := "11:30" } ∈
      (exampleDb.update_reminder 2 "nt" "nd" "11:30").get_all_reminders ∧
    exampleReminder ∈ (exampleDb.update_reminder 2 "nt" "nd" "11:30").get_all_reminders :=
  ⟨(update_reminder_frame_spec exampleDb 2 "nt" "nd" "11:30" exampleReminder2
      (by decide) (by decide) rfl).1,
   (update_reminder_frame_spec exampleDb 2 "nt" "nd" "11:30" exampleReminder2
      (by decide) (by decide) rfl).2.1 exampleReminder (by decide) (by decide)⟩

/-- C4: in `Delete` mode with a valid selection, pressing `y` (store delete
succeeding) removes the selected entry from the cache, decrements
`selected_idx` exactly when it now equals the new length and is positive
(otherwise leaving it unchanged, hence 0 when the list empties), returns to
`List` mode, and keeps `selected_idx` in range whenever the remaining cache is
non-empty. -/
theorem delete_confirm_spec (app : AppState) (db : Database)
    (hmode : app.mode = Mode.Delete)
    (hidx : app.selected_idx < app.reminders.length) :
    (handle_delete_input (KeyCode.char 'y') app db).1.reminders =
      app.reminders.eraseIdx app.selected_idx ∧
    (handle_delete_input (KeyCode.char 'y') app db).1.mode = Mode.List ∧
    (handle_delete_input (KeyCode.char 'y') app db).1.selected_idx =
      (if app.selected_idx = (app.reminders.eraseIdx app.selected_idx).length ∧
          0 < app.selected_idx
       then app.selected_idx - 1 else app.selected_idx) ∧
    (app.reminders.eraseIdx app.selected_idx ≠ [] →
      (handle_delete_input (KeyCode.char 'y') app db).1.selected_idx <
        (app.reminders.eraseIdx app.selected_idx).length) ∧
    (app.reminders.eraseIdx app.selected_idx = [] →
      (handle_delete_input (KeyCode.char 'y') app db).1.selected_idx = 0) := by
  have hget := List.get?_eq_get hidx
  have hlen : (app.reminders.eraseIdx app.selected_idx).length =
      app.reminders.length - 1 := by
    rw [List.length_eraseIdx]
    simp [hidx]
  simp only [handle_delete_input, hget, if_pos]
  refine ⟨trivial, trivial, ?_, ?_, ?_⟩
  · split_ifs <;> omega
  · intro hne
    have hpos : 0 < (app.reminders.eraseIdx app.selected_idx).length :=
      List.length_pos.mpr hne
    split_ifs <;> omega
  · intro hnil
    have h0 : (app.reminders.eraseIdx app.selected_idx).length = 0 := by
      rw [hnil]
      rfl
    split_ifs <;> omega

/-- C4 (witness): confirming the delete of the selected (last) entry of the
concrete two-element example state removes it and returns to `List` mode. -/
theorem delete_confirm_spec_witness :
    exampleDeleteApp.mode = Mode.Delete ∧
    exampleDeleteApp.selected_idx < exampleDeleteApp.reminders.length ∧
    (handle_delete_input (KeyCode.char 'y') exampleDeleteApp exampleDb).1.mode =
      Mode.List ∧
    (handle_delete_input (KeyCode.char 'y') exampleDeleteApp exampleDb).1.reminders =
      exampleDeleteApp.reminders.eraseIdx exampleDeleteApp.selected_idx :=
  ⟨rfl, by decide,
   (delete_confirm_spec exampleDeleteApp exampleDb rfl (by decide)).2.1,
   (delete_confirm_spec exampleDeleteApp exampleDb rfl (by decide)).1⟩

/-- C9: in `Add` or `Edit` mode, Enter first commits the input buffer into the
active draft field; if any committed field is empty the error is the
fields-filled message, the store is untouched and the mode is unchanged; else
if the committed time fails validation the error is the invalid-time message,
the store is untouched and the mode is unchanged; the empty-field check takes
precedence (its branch needs no time-format assumption). -/
theorem form_enter_validation_spec (app : AppState) (db : Database)
    (is_add : Bool) (now : String)
    (hmode : app.mode = Mode.Add ∨ app.mode = Mode.Edit) :
    ((app.form_fields.set app.input_field app.input).title = "" ∨
     (app.form_fields.set app.input_field app.input).description = "" ∨
     (app.form_fields.set app.input_field app.input).time = "" →
      (handle_form_input KeyCode.enter app db is_add now).1 =
        { app with form_fields := app.form_fields.set app.input_field app.input,
                   error_msg := some "All fields must be filled" } ∧
      (handle_form_input KeyCode.enter app db is_add now).2 = db) ∧
    (¬ ((app.form_fields.set app.input_field app.input).title = "" ∨
        (app.form_fields.set app.input_field app.input).description = "" ∨
        (app.form_fields.set app.input_field app.input).time = "") →
      validate_time_format (app.form_fields.set app.input_field app.input).time
          = false →
      (handle_form_input KeyCode.enter app db is_add now).1 =
        { app with form_fields := app.form_fields.set app.input_field app.input,
                   error_msg :=
                     some "Invalid time format. Use HH:MM (e.g., 06:59)" } ∧
      (handle_form_input KeyCode.enter app db is_add now).2 = db) := by
  constructor
  · intro h
    rw [handle_form_input]
    rw [if_pos h]
    exact ⟨rfl, rfl⟩
  · intro h hv
    rw [handle_form_input, if_neg h, if_pos (by simp [hv])]
    exact ⟨rfl, rfl⟩

/-- C9 (witness): submitting the concrete `Add` draft whose description stays
empty sets the fields-filled error and leaves the store untouched. -/
theorem form_enter_validation_spec_witness :
    (handle_form_input KeyCode.enter exampleEmptyDescApp exampleDb true "N").1 =
      { exampleEmptyDescApp with
        form_fields := exampleEmptyDescApp.form_fields.set
          exampleEmptyDescApp.input_field exampleEmptyDescApp.input,
        error_msg := some "All fields must be filled" } ∧
    (handle_form_input KeyCode.enter exampleEmptyDescApp exampleDb true "N").2 =
      exampleDb :=
  (form_enter_validation_spec exampleEmptyDescApp exampleDb true "N"
    (Or.inl rfl)).1 (by decide)

theorem FormFields.set_get (f : FormFields) (i : Fin 3) : f.set i (f.get i) = f := by
  rw [FormFields.set, FormFields.get]
  split_ifs <;> rfl

theorem fin3_next_then_prev (i : Fin 3) :
    (if i + 1 = 0 then (2 : Fin 3) else i + 1 - 1) = i := by
  revert i
  decide

theorem fin3_prev_then_next (i : Fin 3) :
    (if i = 0 then (2 : Fin 3) else i - 1) + 1 = i := by
  revert i
  decide

/-- C10: whenever the input buffer agrees with the draft field under the
cursor, `next_field` then `prev_field` (and `prev_field` then `next_field`)
restore the `AppState` exactly; in `List` or `Delete` mode both operations are
no-ops. -/
theorem field_navigation_roundtrip_spec (app : AppState) :
    (app.input = app.form_fields.get app.input_field →
      app.next_field.prev_field = app ∧ app.prev_field.next_field = app) ∧
    (app.mode = Mode.List ∨ app.mode = Mode.Delete →
      app.next_field = app ∧ app.prev_field = app) := by
  have hnoop : ¬ (app.mode = Mode.Add ∨ app.mode = Mode.Edit) →
      app.next_field = app ∧ app.prev_field = app := by
    intro hm
    constructor
    · rw [AppState.next_field, if_neg hm]
    · rw [AppState.prev_field, if_neg hm]
  constructor
  · intro h
    by_cases hmode : app.mode = Mode.Add ∨ app.mode = Mode.Edit
    · have hfix : app.form_fields.set app.input_field app.input =
          app.form_fields := by
        rw [h, FormFields.set_get]
      have e1 : app.next_field =
          { app with input_field := app.input_field + 1,
                     input := app.form_fields.get (app.input_field + 1) } := by
        rw [AppState.next_field, if_pos hmode, hfix]
      have e2 : app.prev_field =
          { app with
              input_field := if app.input_field = 0 then 2 else app.input_field - 1,
              input := app.form_fields.get
                (if app.input_field = 0 then 2 else app.input_field - 1) } := by
        rw [AppState.prev_field, if_pos hmode, hfix]
      constructor
      · rw [e1, AppState.prev_field]
        simp only []
        rw [if_pos hmode]
        simp only [FormFields.set_get, fin3_next_then_prev, ← h]
      · rw [e2, AppState.next_field]
        simp only []
        rw [if_pos hmode]
        simp only [FormFields.set_get, fin3_prev_then_next, ← h]
    · obtain ⟨e1, e2⟩ := hnoop hmode
      exact ⟨by rw [e1, e2], by rw [e2, e1]⟩
  · intro hm
    refine hnoop ?_
    rcases hm with hm | hm <;> simp [hm]

/-- C10 (witness): a concrete `Add`-mode state whose input buffer equals the
active draft field is restored by next-then-prev, and `next_field` is a no-op
on the freshly created `List`-mode state. -/
theorem field_navigation_roundtrip_spec_witness :
    (AppState.mk Mode.Add [] 0 "t" 0
        { title := "t", description := "d", time := "06:59" } none).next_field.prev_field =
      AppState.mk Mode.Add [] 0 "t" 0
        { title := "t", description := "d", time := "06:59" } none ∧
    (AppState.new []).next_field = AppState.new [] :=
  ⟨((field_navigation_roundtrip_spec
      (AppState.mk Mode.Add [] 0 "t" 0
        { title := "t", description := "d", time := "06:59" } none)).1 (by decide)).1,
   ((field_navigation_roundtrip_spec (AppState.new [])).2 (Or.inl rfl)).1⟩

/-- C3 (counterexample): a successful Add from a sorted one-element cache
(time `"10:00"`) appends the new `"09:00"` record at the end of the cache,
which is then no longer sorted ascending by time. -/
theorem cached_sorted_counterexample :
    sortedByTime exampleAddApp.reminders ∧
    (handle_form_input KeyCode.enter exampleAddApp exampleDb true "N").1.mode =
      Mode.List ∧
    (handle_form_input KeyCode.enter exampleAddApp exampleDb true "N").1.error_msg =
      none ∧
    ¬ sortedByTime
      (handle_form_input KeyCode.enter exampleAddApp exampleDb true "N").1.reminders :=
  ⟨by decide, rfl, rfl, by decide⟩

/-- C3 (amended): the startup snapshot is cached exactly as the store returns
it (hence sorted), and a Delete refresh preserves sortedness of the cache; Add
appends at the end and Edit overwrites in place, so those refreshes need not
preserve sortedness. -/
theorem cached_sorted_amended :
    (∀ l, sortedByTime l → sortedByTime (AppState.new l).reminders) ∧
    (∀ key app db, sortedByTime app.reminders →
      sortedByTime (handle_delete_input key app db).1.reminders) := by
  constructor
  · intro l hl
    exact hl
  · intro key app db hs
    cases key with
    | char c =>
      rw [handle_delete_input]
      by_cases hy : c = 'y'
      · rw [if_pos hy]
        rcases hget : app.reminders.get? app.selected_idx with _ | r
        · exact hs
        · exact List.Pairwise.sublist (List.eraseIdx_sublist _ _) hs
      · rw [if_neg hy]
        split_ifs <;> exact hs
    | backspace => exact hs
    | tab => exact hs
    | backTab => exact hs
    | esc => exact hs
    | enter => exact hs
    | up => exact hs
    | down => exact hs
    | other => exact hs

/-- C3 (amended, witness): the sorted two-element cache stays sorted through
startup caching and through a confirmed delete. -/
theorem cached_sorted_amended_witness :
    sortedByTime (AppState.new [exampleReminder2, exampleReminder]).reminders ∧
    sortedByTime (handle_delete_input (KeyCode.char 'y')
      { exampleDeleteApp with reminders := [exampleReminder2, exampleReminder] }
      exampleDb).1.reminders :=
  ⟨cached_sorted_amended.1 [exampleReminder2, exampleReminder] (by decide),
   cached_sorted_amended.2 (KeyCode.char 'y')
     { exampleDeleteApp with reminders := [exampleReminder2, exampleReminder] }
     exampleDb (by decide)⟩

theorem notification_cycle_mem_fst (t : String) (deliver : Int → Bool)
    (rs : List Reminder) (notified : List Int) (i : Int) :
    i ∈ (notification_cycle t deliver rs notified).1 ↔
      i ∈ notified ∨ i ∈ (notification_cycle t deliver rs notified).2 := by
  induction rs generalizing notified with
  | nil => simp [notification_cycle]
  | cons r rs ih =>
    rw [notification_cycle]
    by_cases hm : r.time = t ∧ r.id ∉ notified
    · rw [if_pos hm]
      by_cases hd : deliver r.id
      · rw [if_pos hd]
        simp only [ih (r.id :: notified), List.mem_cons]
        tauto
      · rw [if_neg hd]
        exact ih notified
    · rw [if_neg hm]
      exact ih notified

theorem notification_cycle_count_zero (t : String) (deliver : Int → Bool)
    (rs : List Reminder) (notified : List Int) (i : Int) (h : i ∈ notified) :
    (notification_cycle t deliver rs notified).2.count i = 0 := by
  induction rs generalizing notified with
  | nil => simp [notification_cycle]
  | cons r rs ih =>
    rw [notification_cycle]
    by_cases hm : r.time = t ∧ r.id ∉ notified
    · rw [if_pos hm]
      by_cases hd : deliver r.id
      · rw [if_pos hd]
        have hne : r.id ≠ i := fun he => hm.2 (he ▸ h)
        simp only [List.count_cons,
          ih (r.id :: notified) (List.mem_cons_of_mem _ h)]
        simp [hne]
      · rw [if_neg hd]
        exact ih notified h
    · rw [if_neg hm]
      exact ih notified h

theorem notification_cycle_count_le_one (t : String) (deliver : Int → Bool)
    (rs : List Reminder) (notified : List Int) (i : Int) :
    (notification_cycle t deliver rs notified).2.count i ≤ 1 := by
  induction rs generalizing notified with
  | nil => simp [notification_cycle]
  | cons r rs ih =>
    rw [notification_cycle]
    by_cases hm : r.time = t ∧ r.id ∉ notified
    · rw [if_pos hm]
      by_cases hd : deliver r.id
      · rw [if_pos hd]
        by_cases he : r.id = i
        · simp only [List.count_cons,
            notification_cycle_count_zero t deliver rs (r.id :: notified) i
              (he ▸ List.mem_cons_self r.id notified)]
          simp [he]
        · simp only [List.count_cons]
          have := ih (r.id :: notified)
          simp only [beq_iff_eq, he, if_false]
          omega
      · rw [if_neg hd]
        exact ih notified
    · rw [if_neg hm]
      exact ih notified

theorem notification_cycle_retry (t : String) (deliver : Int → Bool)
    (rs : List Reminder) :
    ∀ notified i, i ∉ notified → (∃ r ∈ rs, r.id = i ∧ r.time = t) →
      deliver i = true → i ∈ (notification_cycle t deliver rs notified).2 := by
  induction rs with
  | nil =>
    intro notified i _ hr _
    simp at hr
  | cons r rs ih =>
    intro notified i hni hr hd
    rw [notification_cycle]
    rcases hr with ⟨r', hr', hid, htime⟩
    rcases List.mem_cons.mp hr' with he | hmem
    · subst he
      have hm : r'.time = t ∧ r'.id ∉ notified := ⟨htime, by rwa [hid]⟩
      rw [if_pos hm, if_pos (by rwa [hid])]
      simp [hid]
    · by_cases hm : r.time = t ∧ r.id ∉ notified
      · rw [if_pos hm]
        by_cases hd2 : deliver r.id
        · rw [if_pos hd2]
          by_cases hri : r.id = i
          · simp [hri]
          · have hni2 : i ∉ r.id :: notified := by
              simp only [List.mem_cons]
              rintro (he | hmem2)
              · exact hri he.symm
              · exact hni hmem2
            have := ih (r.id :: notified) i hni2 ⟨r', hmem, hid, htime⟩ hd
            simp only [List.mem_cons]
            right
            exact this
        · rw [if_neg hd2]
          exact ih notified i hni ⟨r', hmem, hid, htime⟩ hd
      · rw [if_neg hm]
        exact ih notified i hni ⟨r', hmem, hid, htime⟩ hd

theorem notification_run_mem_fst (cs : List WatcherCycle) (notified : List Int)
    (i : Int) :
    i ∈ (notification_run cs notified).1 ↔
      i ∈ notified ∨ i ∈ (notification_run cs notified).2 := by
  induction cs generalizing notified with
  | nil => simp [notification_run]
  | cons c cs ih =>
    rw [notification_run]
    simp only [List.mem_append]
    rw [ih, notification_cycle_mem_fst]
    tauto

theorem notification_run_count_zero (cs : List WatcherCycle)
    (notified : List Int) (i : Int) (h : i ∈ notified) :
    (notification_run cs notified).2.count i = 0 := by
  induction cs generalizing notified with
  | nil => simp [notification_run]
  | cons c cs ih =>
    rw [notification_run]
    simp only [List.count_append]
    rw [notification_cycle_count_zero _ _ _ _ _ h,
      ih _ ((notification_cycle_mem_fst _ _ _ _ _).mpr (Or.inl h))]

theorem notification_run_count_le_one (cs : List WatcherCycle)
    (notified : List Int) (i : Int) :
    (notification_run cs notified).2.count i ≤ 1 := by
  induction cs generalizing notified with
  | nil => simp [notification_run]
  | cons c cs ih =>
    rw [notification_run]
    simp only [List.count_append]
    by_cases hstep :
      i ∈ (notification_cycle c.current_time c.deliver c.reminders notified).2
    · have h1 := notification_cycle_count_le_one c.current_time c.deliver
        c.reminders notified i
      have hfst : i ∈ (notification_cycle c.current_time c.deliver
          c.reminders notified).1 :=
        (notification_cycle_mem_fst _ _ _ _ _).mpr (Or.inr hstep)
      rw [notification_run_count_zero cs _ i hfst]
      omega
    · have h0 : (notification_cycle c.current_time c.deliver
          c.reminders notified).2.count i = 0 :=
        List.count_eq_zero.mpr hstep
      rw [h0]
      simpa using ih _

/-- C2: across any finite run of the watcher loop, each reminder id is
successfully notified at most once; an id is in the dedup set after the run
exactly when it was there initially or its delivery succeeded during the run;
an id already in the dedup set is never notified again; and within one cycle,
an id not yet in the set whose reminder matches the current time and whose
delivery succeeds is notified (so after a failed delivery, which leaves the id
out of the set, the next matching cycle retries it). -/
theorem notification_worker_at_most_once :
    (∀ cs notified i, (notification_run cs notified).2.count i ≤ 1) ∧
    (∀ cs notified i, i ∈ (notification_run cs notified).1 ↔
      i ∈ notified ∨ i ∈ (notification_run cs notified).2) ∧
    (∀ cs notified i, i ∈ notified →
      (notification_run cs notified).2.count i = 0) ∧
    (∀ t deliver rs notified i, i ∉ notified →
      (∃ r ∈ rs, r.id = i ∧ r.time = t) → deliver i = true →
      i ∈ (notification_cycle t deliver rs notified).2) :=
  ⟨notification_run_count_le_one,
   notification_run_mem_fst,
   notification_run_count_zero,
   fun t deliver rs notified i hni hr hd =>
     notification_cycle_retry t deliver rs notified i hni hr hd⟩

/-- C2 (witness): the reminder with id 2 and time `"09:00"` is notified in a
matching cycle starting from the empty dedup set, and over two identical
matching cycles its id is emitted at most once. -/
theorem notification_worker_at_most_once_witness :
    (2 : Int) ∈ (notification_cycle "09:00" (fun _ => true)
      [exampleReminder2] []).2 ∧
    (notification_run
      [{ reminders := [exampleReminder2], current_time := "09:00",
         deliver := fun _ => true },
       { reminders := [exampleReminder2], current_time := "09:00",
         deliver := fun _ => true }] []).2.count 2 ≤ 1 :=
  ⟨notification_worker_at_most_once.2.2.2 "09:00" (fun _ => true)
     [exampleReminder2] [] 2 (by simp) ⟨exampleReminder2, by simp, rfl, rfl⟩ rfl,
   notification_worker_at_most_once.1 _ [] 2⟩
